import Mathlib

/-!
# Verification of the csAnalyze scan-aggregation and localization pipeline

Shallow embedding of `python-scripts/csAnalyze.py`.  Python dictionaries are
modelled as association lists in insertion order (iteration order never
affects the values proved about below), Python floats as exact rationals,
the `float("NaN")` position marker as `Option.none`, and a Python
`KeyError` raised during localization as `Except.error` carrying the
missing key.  `windowSize` and `stepSize` are integers, as required by the
Python 2 `range` call that builds the bucket sequence.
-/

/-- One raw scan record: `{"address": ..., "time": ..., "rssi": ...}`. -/
structure ScanRec where
  address : String
  time : ℚ
  rssi : ℚ
deriving DecidableEq

/-- A parsed dataset: per-node scan lists plus the global time range. -/
structure ScanData where
  scans : List (String × List ScanRec)
  startTimestamp : ℚ
  endTimestamp : ℚ
deriving DecidableEq

/-- A `{"time": ..., "rssi": ...}` entry stored in the per-device index. -/
structure ScanEntry where
  time : ℚ
  rssi : ℚ
deriving DecidableEq

/-- A node position from the `nodeLocations` table. -/
structure NodeLoc where
  x : ℚ
  y : ℚ
deriving DecidableEq

/-- First-match lookup in an association list (Python `d[k]` / `k in d`). -/
def lookupA {κ α : Type _} [DecidableEq κ] (l : List (κ × α)) (k : κ) : Option α :=
  match l with
  | [] => none
  | p :: rest => if p.1 = k then some p.2 else lookupA rest k

/-- Update-or-insert on an association list: replace the value at `k` by
`f (some old)`, or append `(k, f none)` when `k` is absent.  This models the
Python `if k not in d: d[k] = init` / `d[k] = ...` idiom. -/
def alUpdate {κ α : Type _} [DecidableEq κ] (l : List (κ × α)) (k : κ)
    (f : Option α → α) : List (κ × α) :=
  match l with
  | [] => [(k, f none)]
  | p :: rest =>
      if p.1 = k then (k, f (some p.2)) :: rest else p :: alUpdate rest k f

/-- Two-level lookup: `d[k1][k2]`. -/
def lookup2 {α : Type _} (l : List (String × List (String × α))) (k1 k2 : String) :
    Option α :=
  (lookupA l k1).bind (fun m => lookupA m k2)

/-- The device-scan index returned by `getScansPerDevicePerNode`. -/
structure ScanIndex where
  scansPerDev : List (String × List (String × List ScanEntry))
  minRssi : ℚ
  maxRssi : ℚ
deriving DecidableEq

/-- Process a single scan record: route it into `scansPerDev[device][node]`
and update the running min/max rssi, exactly as the loop body of
`getScansPerDevicePerNode` does. -/
def indexScan (nodeAddr : String) (acc : ScanIndex) (scan : ScanRec) : ScanIndex :=
  { scansPerDev :=
      alUpdate acc.scansPerDev scan.address (fun odev =>
        alUpdate (odev.getD []) nodeAddr (fun onode =>
          onode.getD [] ++ [⟨scan.time, scan.rssi⟩]))
    maxRssi := if scan.rssi > acc.maxRssi then scan.rssi else acc.maxRssi
    minRssi := if scan.rssi < acc.minRssi then scan.rssi else acc.minRssi }

/-- `getScansPerDevicePerNode(data)`: reorganize the raw per-node scan lists
into a per-device per-node index, tracking min/max rssi from the sentinels
`127` / `-127`. -/
def getScansPerDevicePerNode (data : ScanData) : ScanIndex :=
  data.scans.foldl
    (fun acc nd => nd.2.foldl (indexScan nd.1) acc)
    ⟨[], 127, -127⟩

/-- Python 2 `int()` on a float: truncation toward zero. -/
def pyInt (q : ℚ) : ℤ := q.num.tdiv q.den

/-- Length of Python `range(a, b, s)` for a positive step `s`. -/
def pyRangeLen (a b s : ℤ) : ℕ := (b - a + s - 1).toNat / s.toNat

/-- Python `range(a, b, s)` for a positive step `s`:
`[a, a+s, a+2*s, ...]` while below `b`. -/
def pyRange (a b s : ℤ) : List ℤ :=
  (List.range (pyRangeLen a b s)).map (fun i : ℕ => a + (i : ℤ) * s)

/-- The bucket start-time sequence shared by the aggregation functions:
`range(int(startTimestamp), int(endTimestamp)-windowSize+1, stepSize)`. -/
def startTimesOf (data : ScanData) (windowSize stepSize : ℤ) : List ℤ :=
  pyRange (pyInt data.startTimestamp) (pyInt data.endTimestamp - windowSize + 1) stepSize

/-- The window-membership test `startTimes[tInd] <= timestamp < startTimes[tInd]+windowSize`. -/
def inBucketB (t0 windowSize : ℤ) (t : ℚ) : Bool :=
  decide ((t0 : ℚ) ≤ t ∧ t < (t0 : ℚ) + (windowSize : ℚ))

/-- The count accumulated for one bucket of the frequency view: `+= 1.0` for
every scan entry falling in the window. -/
def bucketCount (entries : List ScanEntry) (t0 windowSize : ℤ) : ℚ :=
  entries.foldl (fun c e => if inBucketB t0 windowSize e.time then c + 1 else c) 0

/-- The hard-coded addresses of beacons 0, 5, 9, which "scan six times faster". -/
def fastNodes : List String :=
  ["E8:00:93:4E:7B:D9", "F5:A7:4B:49:8C:7D", "FE:04:85:F9:8F:E9"]

/-- The per-node frequency sequence built by `getFrequencyPerDevicePerNode`:
one entry per bucket index `tInd` in `range(1, len(startTimes))`, each a
window count, divided by `6.0` for the fast-scanning nodes. -/
def freqList (entries : List ScanEntry) (startTimes : List ℤ)
    (windowSize : ℤ) (nodeAddr : String) : List ℚ :=
  (startTimes.drop 1).map (fun t0 =>
    let c := bucketCount entries t0 windowSize
    if nodeAddr ∈ fastNodes then c / 6 else c)

/-- Result of `getFrequencyPerDevicePerNode`. -/
structure FreqResult where
  numScansPerDev : List (String × List (String × List ℚ))
  startTimes : List ℤ
deriving DecidableEq

/-- `getFrequencyPerDevicePerNode(data, windowSize, stepSize)`.  The bucket
loop runs over `range(1, len(startTimes))`, so when the bucket sequence has
at most one entry no node key is ever created and every device maps to an
empty dict. -/
def getFrequencyPerDevicePerNode (data : ScanData) (windowSize stepSize : ℤ) :
    FreqResult :=
  let idx := getScansPerDevicePerNode data
  let startTimes := startTimesOf data windowSize stepSize
  { numScansPerDev :=
      idx.scansPerDev.map (fun dev =>
        (dev.1,
          if startTimes.length ≤ 1 then []
          else dev.2.map (fun nd => (nd.1, freqList nd.2 startTimes windowSize nd.1))))
    startTimes := startTimes }

/-- Sum of the rssi values of a list of scan entries (the `rssiSum` accumulator). -/
def sumRssi (entries : List ScanEntry) : ℚ :=
  entries.foldl (fun s e => s + e.rssi) 0

/-- The per-node average-rssi sequence built by `getAverageRssiPerDevicePerNode`:
one entry per bucket, the mean rssi of the scans in the window when any
landed there and the sentinel `-105.0` otherwise. -/
def avgList (entries : List ScanEntry) (startTimes : List ℤ) (windowSize : ℤ) :
    List ℚ :=
  startTimes.map (fun t0 =>
    let inWin := entries.filter (fun e => inBucketB t0 windowSize e.time)
    if inWin.length = 0 then -105 else sumRssi inWin / inWin.length)

/-- Result of `getAverageRssiPerDevicePerNode`. -/
structure AvgResult where
  avgRssiPerDev : List (String × List (String × List ℚ))
  startTimes : List ℤ
deriving DecidableEq

/-- `getAverageRssiPerDevicePerNode(data, windowSize, stepSize)`: the per-node
lists are pre-filled with `-105.0` for every bucket and overwritten with the
window mean wherever at least one scan falls. -/
def getAverageRssiPerDevicePerNode (data : ScanData) (windowSize stepSize : ℤ) :
    AvgResult :=
  let idx := getScansPerDevicePerNode data
  let startTimes := startTimesOf data windowSize stepSize
  { avgRssiPerDev :=
      idx.scansPerDev.map (fun dev =>
        (dev.1, dev.2.map (fun nd => (nd.1, avgList nd.2 startTimes windowSize))))
    startTimes := startTimes }

/-- Sequential effectful map over a list in the `Except` monad, mirroring a
Python loop that may raise: the first failing element aborts the whole run. -/
def mapME {ε α β : Type _} (f : α → Except ε β) : List α → Except ε (List β)
  | [] => Except.ok []
  | a :: l =>
    match f a with
    | Except.error e => Except.error e
    | Except.ok b =>
      match mapME f l with
      | Except.error e => Except.error e
      | Except.ok bs => Except.ok (b :: bs)

/-- The weight `(avgRssi[dev][nodeAddr][tInd] + 105.0)**2` read off the
average-rssi aggregate of one device.  The `getD` defaults stand in for the
Python `KeyError`/`IndexError` cases, which are unreachable because the
frequency and average aggregates are built over the same device and node
keys and the average lists span every bucket index. -/
def weightFor (avgDev : List (String × List ℚ)) (nodeAddr : String) (tInd : ℕ) : ℚ :=
  ((((lookupA avgDev nodeAddr).getD []).getD tInd 0) + 105) ^ 2

/-- The accumulation loop `pathX[tInd] += weight * nodeLocations[n]["x"]`
(and the same for `y`), raising on the first node address absent from
`nodeLocations`. -/
def accumCentroid (nodeLocations : List (String × NodeLoc)) (weightSum : ℚ) :
    List (String × ℚ) → ℚ × ℚ → Except String (ℚ × ℚ)
  | [], acc => Except.ok acc
  | q :: rest, acc =>
    match lookupA nodeLocations q.1 with
    | none => Except.error q.1
    | some loc =>
        accumCentroid nodeLocations weightSum rest
          (acc.1 + q.2 / weightSum * loc.x, acc.2 + q.2 / weightSum * loc.y)

/-- The `weights` dict of one bucket: every node of the device's frequency
aggregate paired with its weight. -/
def bucketWeights (nodes avgDev : List (String × List ℚ)) (tInd : ℕ) :
    List (String × ℚ) :=
  nodes.map (fun nd => (nd.1, weightFor avgDev nd.1 tInd))

/-- The `weightSum` accumulator: `weightSum += weights[nodeAddr]`. -/
def bucketWeightSum (ws : List (String × ℚ)) : ℚ :=
  ws.foldl (fun s p => s + p.2) 0

/-- One bucket of `getPathPerDevice` for one device: compute the weights of
all nodes appearing in the device's frequency aggregate, emit `none` (the
`(NaN, NaN)` marker) when the weight sum is below `1.0`, and otherwise
accumulate the weighted centroid, which may raise on a missing location. -/
def bucketPos (nodes : List (String × List ℚ)) (avgDev : List (String × List ℚ))
    (nodeLocations : List (String × NodeLoc)) (tInd : ℕ) :
    Except String (Option (ℚ × ℚ)) :=
  if bucketWeightSum (bucketWeights nodes avgDev tInd) < 1 then Except.ok none
  else
    (accumCentroid nodeLocations (bucketWeightSum (bucketWeights nodes avgDev tInd))
        (bucketWeights nodes avgDev tInd) (0, 0)).map some

/-- The per-device body of `getPathPerDevice`: one `bucketPos` per bucket
index, keyed by the device address. -/
def devicePath (avg : AvgResult) (nodeLocations : List (String × NodeLoc))
    (startTimes : List ℤ) (dev : String × List (String × List ℚ)) :
    Except String (String × List (Option (ℚ × ℚ))) :=
  (mapME (bucketPos dev.2 ((lookupA avg.avgRssiPerDev dev.1).getD []) nodeLocations)
      (List.range startTimes.length)).map (fun buckets => (dev.1, buckets))

/-- Result of `getPathPerDevice`.  An entry `none` in a bucket list is the
`(NaN, NaN)` "no estimate" marker. -/
structure PathResult where
  pathPerDevice : List (String × List (Option (ℚ × ℚ)))
  startTimes : List ℤ
deriving DecidableEq

/-- `getPathPerDevice(data, windowSize, stepSize, nodeLocations)`: a weighted
centroid per device per bucket, iterating the node set of the frequency
aggregate and the rssi values of the average aggregate. -/
def getPathPerDevice (data : ScanData) (windowSize stepSize : ℤ)
    (nodeLocations : List (String × NodeLoc)) : Except String PathResult :=
  (mapME
      (devicePath (getAverageRssiPerDevicePerNode data windowSize stepSize)
        nodeLocations (getFrequencyPerDevicePerNode data windowSize stepSize).startTimes)
      (getFrequencyPerDevicePerNode data windowSize stepSize).numScansPerDev).map
    (fun paths =>
      { pathPerDevice := paths
        startTimes := (getFrequencyPerDevicePerNode data windowSize stepSize).startTimes })

/-- Python 2 `round(t, 1)`: rounding to one decimal, halves away from zero. -/
def pyRound1 (q : ℚ) : ℚ :=
  (if 0 ≤ q then (⌊q * 10 + 1 / 2⌋ : ℚ) else -(⌊-(q * 10) + 1 / 2⌋ : ℚ)) / 10

/-- Result of `getTimedMeasurements`: rssi lists keyed by rounded timestamp,
node and device, plus the tracked min/max accepted timestamps. -/
structure TimedResult where
  data : List (ℚ × List (String × List (String × List ℚ)))
  startTimestamp : ℚ
  endTimestamp : ℚ
deriving DecidableEq

/-- The filter of `getTimedMeasurements`: skip when `time < start` or
`time > end`, each bound only when supplied. -/
def tmAccept (lo hi : Option ℚ) (t : ℚ) : Bool :=
  !(match lo with | some s => decide (t < s) | none => false) &&
  !(match hi with | some e => decide (t > e) | none => false)

/-- The loop body of `getTimedMeasurements` for one scan record of one node:
filter, update the tracked `startTimestamp`/`endTimestamp` (a current value
of `-1` counts as unset), then append the rssi under the rounded timestamp. -/
def tmStep (lo hi : Option ℚ) (node : String) (st : TimedResult) (e : ScanRec) :
    TimedResult :=
  if tmAccept lo hi e.time then
    { data :=
        alUpdate st.data (pyRound1 e.time) (fun o1 =>
          alUpdate (o1.getD []) node (fun o2 =>
            alUpdate (o2.getD []) e.address (fun o3 => o3.getD [] ++ [e.rssi])))
      startTimestamp :=
        if e.time < st.startTimestamp ∨ st.startTimestamp = -1 then e.time
        else st.startTimestamp
      endTimestamp :=
        if e.time > st.endTimestamp ∨ st.endTimestamp = -1 then e.time
        else st.endTimestamp }
  else st

/-- `getTimedMeasurements(*data, start=..., end=...)`: merge the datasets into
a rounded-timestamp-keyed view, tracking the accepted time range with the
sentinel `-1` for "empty". -/
def getTimedMeasurements (datasets : List ScanData) (lo hi : Option ℚ) :
    TimedResult :=
  datasets.foldl
    (fun st d => d.scans.foldl (fun st nd => nd.2.foldl (tmStep lo hi nd.1) st) st)
    ⟨[], -1, -1⟩


/-- Modelled from the spec wording of claim C2: the localization weight
`w[n] = (avgRssi[n][i] + 105.0)^2`. -/
def specWeight (avgDev : List (String × List ℚ)) (i : ℕ) (n : String) : ℚ :=
  ((((lookupA avgDev n).getD []).getD i 0) + 105) ^ 2

/-- Modelled from the spec wording of claim C2: the per-bucket position,
`(NaN, NaN)` (here `none`) when the weight sum is below `1.0` and the
weighted centroid `x[i] = Σ (w[n]/weightSum) * nodeLocations[n].x` (and the
same for `y`) otherwise, over the nodes with an entry for the device. -/
def specBucketPos (nodes : List String) (avgDev : List (String × List ℚ))
    (nodeLocations : List (String × NodeLoc)) (i : ℕ) : Option (ℚ × ℚ) :=
  if (nodes.map (specWeight avgDev i)).sum < 1 then none
  else
    some
      ((nodes.map (fun n =>
          specWeight avgDev i n / (nodes.map (specWeight avgDev i)).sum
            * ((lookupA nodeLocations n).getD ⟨0, 0⟩).x)).sum,
       (nodes.map (fun n =>
          specWeight avgDev i n / (nodes.map (specWeight avgDev i)).sum
            * ((lookupA nodeLocations n).getD ⟨0, 0⟩).y)).sum)

/-- Modelled from the spec wording of claim C6: the aggregate for one bucket
is the arithmetic mean of the rssi values of the scans falling in the
window when at least one does, and the sentinel `-105.0` otherwise. -/
def specAvgAt (entries : List ScanEntry) (t0 windowSize : ℤ) : ℚ :=
  let inWin := entries.filter (fun e => inBucketB t0 windowSize e.time)
  if inWin.length = 0 then -105
  else ((inWin.map (fun e => e.rssi)).sum) / inWin.length

/-- Modelled from the spec wording of claim C9: a record time is accepted
when `start <= time <= end`, an absent bound imposing no constraint. -/
def specAccept (lo hi : Option ℚ) (t : ℚ) : Bool :=
  lo.all (fun s => decide (s ≤ t)) && hi.all (fun e => decide (t ≤ e))

/-- All `(node, record)` pairs of a list of datasets, in processing order. -/
def allRecords (datasets : List ScanData) : List (String × ScanRec) :=
  (datasets.map (fun d => (d.scans.map (fun nd => nd.2.map (fun e => (nd.1, e)))).flatten)).flatten

/-- The times of the records accepted by the `getTimedMeasurements` filter,
in processing order. -/
def acceptedTimes (datasets : List ScanData) (lo hi : Option ℚ) : List ℚ :=
  ((allRecords datasets).filter (fun p => specAccept lo hi p.2.time)).map
    (fun p => p.2.time)

/-- Total number of rssi values stored under one node of the regrouped view. -/
def devCount (l : List (String × List ℚ)) : ℕ := (l.map (fun p => p.2.length)).sum

/-- Total number of rssi values stored under one rounded timestamp. -/
def nodeCount (l : List (String × List (String × List ℚ))) : ℕ :=
  (l.map (fun p => devCount p.2)).sum

/-- Total number of rssi values stored in the regrouped view. -/
def tmCount (l : List (ℚ × List (String × List (String × List ℚ)))) : ℕ :=
  (l.map (fun p => nodeCount p.2)).sum

/-- Whether a node address appears in some device's frequency aggregate. -/
def freqHasNode (l : List (String × List (String × List ℚ))) (a : String) : Bool :=
  l.any (fun p => p.2.any (fun q => q.1 == a))

/-- All rssi values occurring anywhere in a dataset, in processing order. -/
def datasetRssis (data : ScanData) : List ℚ :=
  (data.scans.map (fun nd => nd.2.map (fun e => e.rssi))).flatten

/-- The error component of an `Except` result, when any. -/
def errOf {ε α : Type _} : Except ε α → Option ε
  | Except.error e => some e
  | Except.ok _ => none

/-- The one-bucket scenario of the spec: node `A` at the origin, one device
`D`, a single scan at time `10` with rssi `-60`, time range `[0, 20]`. -/
def dataOneBucket : ScanData := ⟨[("A", [⟨"D", 10, -60⟩])], 0, 20⟩

/-- Location table placing node `A` at the origin. -/
def locA : List (String × NodeLoc) := [("A", ⟨0, 0⟩)]

/-- A two-bucket dataset: one scan at time `25` (second bucket) with rssi `-55`. -/
def dataTwoBuckets : ScanData := ⟨[("A", [⟨"D", 25, -55⟩])], 0, 40⟩

/-- A two-bucket dataset with two first-bucket scans of rssi `-50` and `-60`. -/
def dataTwoScans : ScanData := ⟨[("A", [⟨"D", 2, -50⟩, ⟨"D", 4, -60⟩])], 0, 40⟩

/-- A dataset whose single scan at time `5` falls in the gap between the
buckets `[0, 2)` and `[10, 12)` of the `windowSize=2`, `stepSize=10` grid. -/
def dataGap : ScanData := ⟨[("A", [⟨"D", 5, -40⟩])], 0, 21⟩

/-- A dataset with an accepted record at the sentinel time `-1` followed by
one at time `5`. -/
def dataSentinelTime : ScanData := ⟨[("N", [⟨"D", -1, -50⟩, ⟨"D", 5, -60⟩])], -1, 5⟩

/-- A plain two-record dataset for the regrouper. -/
def dataTimed : ScanData := ⟨[("N", [⟨"D", 3, -50⟩, ⟨"D", 7, -60⟩])], 0, 10⟩

/-- Lookup after a key-preserving map rewrites to a map over the lookup. -/
theorem lookupA_map_keyed {κ α β : Type _} [DecidableEq κ]
    (l : List (κ × α)) (f : κ → α → β) (k : κ) :
    lookupA (l.map (fun p => (p.1, f p.1 p.2))) k = (lookupA l k).map (f k) := by
  induction l with
  | nil => rfl
  | cons p rest ih =>
      by_cases h : p.1 = k
      · subst h
        simp [lookupA]
      · simp [lookupA, h, ih]

/-- A fold that conditionally increments a counter computes the filter length. -/
theorem foldl_count_filter {α : Type _} (p : α → Bool) (l : List α) (c : ℚ) :
    l.foldl (fun c x => if p x then c + 1 else c) c
      = c + ((l.filter p).length : ℚ) := by
  induction l generalizing c with
  | nil => simp
  | cons a l ih =>
      by_cases h : p a
      · simp only [List.foldl_cons, h, if_true, List.filter_cons, ih]
        simp only [h, if_true, List.length_cons]
        push_cast
        ring
      · simp only [List.foldl_cons, h, if_false, List.filter_cons, ih]
        simp [h]

/-- A fold that adds up a projection computes the sum of the mapped list. -/
theorem foldl_add_map {α : Type _} (g : α → ℚ) (l : List α) (c : ℚ) :
    l.foldl (fun s x => s + g x) c = c + (l.map g).sum := by
  induction l generalizing c with
  | nil => simp
  | cons a l ih => simp [ih, add_assoc]

/-- The bucket count of the frequency view is the number of entries whose
time satisfies the window-membership test. -/
theorem bucketCount_eq_filter_length (entries : List ScanEntry) (t0 windowSize : ℤ) :
    bucketCount entries t0 windowSize
      = ((entries.filter (fun e => inBucketB t0 windowSize e.time)).length : ℚ) := by
  simpa using foldl_count_filter (fun e => inBucketB t0 windowSize e.time) entries 0

/-- The rssi accumulator is the sum of the rssi values. -/
theorem sumRssi_eq_sum (entries : List ScanEntry) :
    sumRssi entries = (entries.map (fun e => e.rssi)).sum := by
  simpa using foldl_add_map (fun e => e.rssi) entries 0

/-- Index bound of the Python range: `i` is a valid index iff the `i`-th
element is still below the stop value. -/
theorem pyRangeLen_iff (a b s : ℤ) (hs : 0 < s) (i : ℕ) :
    i < pyRangeLen a b s ↔ a + (i : ℤ) * s < b := by
  have hS : 0 < s.toNat := by omega
  unfold pyRangeLen
  rw [Nat.lt_iff_add_one_le, Nat.le_div_iff_mul_le hS, add_one_mul]
  have hPu : ((i * s.toNat : ℕ) : ℤ) = (i : ℤ) * s := by
    push_cast
    rw [Int.toNat_of_nonneg hs.le]
  set P := i * s.toNat with hP
  set u := (i : ℤ) * s with hu
  omega

/-- Elementwise description of the Python range for a positive step. -/
theorem pyRange_getElem (a b s : ℤ) (hs : 0 < s) (i : ℕ) :
    (pyRange a b s)[i]? = if a + (i : ℤ) * s < b then some (a + (i : ℤ) * s) else none := by
  unfold pyRange
  rw [List.getElem?_map]
  by_cases h : a + (i : ℤ) * s < b
  · have hi : i < pyRangeLen a b s := (pyRangeLen_iff a b s hs i).mpr h
    rw [if_pos h, List.getElem?_range hi]
    rfl
  · have hi : ¬ i < pyRangeLen a b s := fun hc => h ((pyRangeLen_iff a b s hs i).mp hc)
    rw [if_neg h, List.getElem?_eq_none (by simpa using hi)]
    rfl

/-- Elementwise description of the bucket start-time sequence:
`startTimes[i] = int(startTimestamp) + i*stepSize`, valid exactly while it
stays at most `int(endTimestamp) - windowSize`. -/
theorem startTimesOf_getElem (data : ScanData) (windowSize stepSize : ℤ)
    (hs : 0 < stepSize) (i : ℕ) :
    (startTimesOf data windowSize stepSize)[i]?
      = if pyInt data.startTimestamp + (i : ℤ) * stepSize
            ≤ pyInt data.endTimestamp - windowSize then
          some (pyInt data.startTimestamp + (i : ℤ) * stepSize)
        else none := by
  unfold startTimesOf
  rw [pyRange_getElem _ _ _ hs]
  have hiff :
      pyInt data.startTimestamp + (i : ℤ) * stepSize
          < pyInt data.endTimestamp - windowSize + 1
        ↔ pyInt data.startTimestamp + (i : ℤ) * stepSize
            ≤ pyInt data.endTimestamp - windowSize := by omega
  rw [if_congr hiff rfl rfl]

/-- The bucket sequence is empty exactly when not even the first window fits. -/
theorem startTimesOf_eq_nil_iff (data : ScanData) (windowSize stepSize : ℤ)
    (hs : 0 < stepSize) :
    startTimesOf data windowSize stepSize = []
      ↔ ¬ pyInt data.startTimestamp ≤ pyInt data.endTimestamp - windowSize := by
  constructor
  · intro hnil hle
    have h0 := startTimesOf_getElem data windowSize stepSize hs 0
    rw [hnil] at h0
    simp only [List.getElem?_nil] at h0
    rw [if_pos (by simpa using hle)] at h0
    exact Option.noConfusion h0
  · intro hgt
    have h0 := startTimesOf_getElem data windowSize stepSize hs 0
    rw [if_neg (by simpa using hgt)] at h0
    rcases hl : startTimesOf data windowSize stepSize with _ | ⟨x, rest⟩
    · rfl
    · rw [hl] at h0
      simp at h0

/-- The average-rssi aggregate holds, for each (device, node) pair of the
scan index, exactly the `avgList` of that pair's entries. -/
theorem avg_lookup2 (data : ScanData) (w s : ℤ) (dev node : String) :
    lookup2 (getAverageRssiPerDevicePerNode data w s).avgRssiPerDev dev node
      = (lookup2 (getScansPerDevicePerNode data).scansPerDev dev node).map
          (fun entries => avgList entries (startTimesOf data w s) w) := by
  unfold lookup2 getAverageRssiPerDevicePerNode
  rw [lookupA_map_keyed
        (getScansPerDevicePerNode data).scansPerDev
        (fun _ m => m.map (fun nd => (nd.1, avgList nd.2 (startTimesOf data w s) w)))
        dev]
  cases lookupA (getScansPerDevicePerNode data).scansPerDev dev with
  | none => rfl
  | some m =>
      simp only [Option.map_some', Option.some_bind]
      rw [lookupA_map_keyed m (fun _ e => avgList e (startTimesOf data w s) w) node]

/-- When the bucket sequence has at least two entries, the frequency
aggregate holds, for each (device, node) pair of the scan index, exactly the
`freqList` of that pair's entries. -/
theorem freq_lookup2 (data : ScanData) (w s : ℤ) (dev node : String)
    (h2 : 2 ≤ (startTimesOf data w s).length) :
    lookup2 (getFrequencyPerDevicePerNode data w s).numScansPerDev dev node
      = (lookup2 (getScansPerDevicePerNode data).scansPerDev dev node).map
          (fun entries => freqList entries (startTimesOf data w s) w node) := by
  unfold lookup2 getFrequencyPerDevicePerNode
  have hc : ¬ (startTimesOf data w s).length ≤ 1 := by omega
  simp only [if_neg hc]
  rw [lookupA_map_keyed
        (getScansPerDevicePerNode data).scansPerDev
        (fun _ m => m.map (fun nd => (nd.1, freqList nd.2 (startTimesOf data w s) w nd.1)))
        dev]
  cases lookupA (getScansPerDevicePerNode data).scansPerDev dev with
  | none => rfl
  | some m =>
      simp only [Option.map_some', Option.some_bind]
      rw [lookupA_map_keyed m (fun k e => freqList e (startTimesOf data w s) w k) node]

/-- Claim C7 (amended: the code truncates the timestamps toward zero with
Python `int()`, which agrees with `floor` only for nonnegative timestamps):
for `windowSize > 0` and `stepSize > 0` the bucket sequence is exactly
`startTimes[i] = int(startTimestamp) + i*stepSize` for the indices with
`startTimes[i] <= int(endTimestamp) - windowSize`, and it is empty when no
index qualifies. -/
theorem claim_C7 (data : ScanData) (windowSize stepSize : ℤ)
    (_hw : 0 < windowSize) (hs : 0 < stepSize) (i : ℕ) :
    ((startTimesOf data windowSize stepSize)[i]?
        = if pyInt data.startTimestamp + (i : ℤ) * stepSize
              ≤ pyInt data.endTimestamp - windowSize then
            some (pyInt data.startTimestamp + (i : ℤ) * stepSize)
          else none)
  ∧ (startTimesOf data windowSize stepSize = []
        ↔ ¬ pyInt data.startTimestamp ≤ pyInt data.endTimestamp - windowSize) :=
  ⟨startTimesOf_getElem data windowSize stepSize hs i,
   startTimesOf_eq_nil_iff data windowSize stepSize hs⟩

/-- Witness for claim C7 at the one-bucket scenario. -/
theorem claim_C7_witness :
    ((startTimesOf dataOneBucket 20 20)[0]?
        = if pyInt dataOneBucket.startTimestamp + ((0 : ℕ) : ℤ) * 20
              ≤ pyInt dataOneBucket.endTimestamp - 20 then
            some (pyInt dataOneBucket.startTimestamp + ((0 : ℕ) : ℤ) * 20)
          else none)
  ∧ (startTimesOf dataOneBucket 20 20 = []
        ↔ ¬ pyInt dataOneBucket.startTimestamp ≤ pyInt dataOneBucket.endTimestamp - 20) :=
  claim_C7 dataOneBucket 20 20 (by norm_num) (by norm_num) 0

/-- Counterexample to claim C7 as stated: with `startTimestamp = -3/2` the
code's first bucket start is `int(-3/2) = -1`, while the claim's formula
`floor(startTimestamp) + 0*stepSize` gives `-2`. -/
theorem claim_C7_counterexample :
    (startTimesOf ⟨[], -3/2, 2⟩ 1 1)[0]? = some (-1)
  ∧ ⌊(-3/2 : ℚ)⌋ + ((0 : ℕ) : ℤ) * 1 = -2 := by
  constructor
  · with_unfolding_all decide
  · norm_num

/-- Claim C3 (amended: the one-entry shortfall holds when the bucket
sequence has at least two entries; with at most one entry the frequency
output has no node keys at all, see the counterexample): the frequency
sequence of a (device, node) pair of the index is one shorter than its
average-rssi sequence, which spans every bucket. -/
theorem claim_C3 (data : ScanData) (w s : ℤ) (dev node : String)
    (entries : List ScanEntry)
    (hidx : lookup2 (getScansPerDevicePerNode data).scansPerDev dev node = some entries)
    (h2 : 2 ≤ (startTimesOf data w s).length) :
    (lookup2 (getFrequencyPerDevicePerNode data w s).numScansPerDev dev node).map
        List.length = some ((startTimesOf data w s).length - 1)
  ∧ (lookup2 (getAverageRssiPerDevicePerNode data w s).avgRssiPerDev dev node).map
        List.length = some (startTimesOf data w s).length := by
  rw [freq_lookup2 data w s dev node h2, avg_lookup2, hidx]
  constructor
  · simp [freqList]
  · simp [avgList]

/-- Witness for claim C3 at the two-bucket scenario. -/
theorem claim_C3_witness :
    (lookup2 (getFrequencyPerDevicePerNode dataTwoBuckets 20 20).numScansPerDev
        "D" "A").map List.length
      = some ((startTimesOf dataTwoBuckets 20 20).length - 1)
  ∧ (lookup2 (getAverageRssiPerDevicePerNode dataTwoBuckets 20 20).avgRssiPerDev
        "D" "A").map List.length
      = some (startTimesOf dataTwoBuckets 20 20).length :=
  claim_C3 dataTwoBuckets 20 20 "D" "A" [⟨25, -55⟩]
    (by with_unfolding_all decide) (by with_unfolding_all decide)

/-- Counterexample to claim C3 as stated: with a single bucket the pair
`(D, A)` is in the index and has an average-rssi sequence of length one,
but no frequency sequence exists at all (so none of length zero exists
either). -/
theorem claim_C3_counterexample :
    lookup2 (getFrequencyPerDevicePerNode dataOneBucket 20 20).numScansPerDev "D" "A"
        = none
  ∧ (lookup2 (getAverageRssiPerDevicePerNode dataOneBucket 20 20).avgRssiPerDev
        "D" "A").map List.length = some 1
  ∧ lookup2 (getScansPerDevicePerNode dataOneBucket).scansPerDev "D" "A"
        = some [⟨10, -60⟩] := by
  with_unfolding_all decide

/-- Bucket `i` of an average-rssi sequence holds the spec-side per-bucket
aggregate for the bucket start `startTimes[i]`. -/
theorem avgList_getElem (entries : List ScanEntry) (st : List ℤ) (w : ℤ)
    (i : ℕ) (t0 : ℤ) (ht : st[i]? = some t0) :
    (avgList entries st w)[i]? = some (specAvgAt entries t0 w) := by
  unfold avgList
  rw [List.getElem?_map, ht]
  simp only [Option.map_some']
  congr 1
  unfold specAvgAt
  simp only [sumRssi_eq_sum]

/-- Claim C6: every (device, node) pair of the index gets an average-rssi
sequence spanning all buckets, whose entry at bucket `i` is the arithmetic
mean of the rssi values of the scans in that window, or the sentinel
`-105.0` when no scan falls there. -/
theorem claim_C6 (data : ScanData) (w s : ℤ) (dev node : String)
    (entries : List ScanEntry) (i : ℕ) (t0 : ℤ)
    (hidx : lookup2 (getScansPerDevicePerNode data).scansPerDev dev node = some entries)
    (ht : (startTimesOf data w s)[i]? = some t0) :
    (lookup2 (getAverageRssiPerDevicePerNode data w s).avgRssiPerDev dev node).map
        List.length = some (startTimesOf data w s).length
  ∧ (lookup2 (getAverageRssiPerDevicePerNode data w s).avgRssiPerDev dev node).bind
        (fun l => l[i]?) = some (specAvgAt entries t0 w) := by
  rw [avg_lookup2, hidx]
  simp only [Option.map_some', Option.some_bind]
  exact ⟨by simp [avgList], avgList_getElem entries _ w i t0 ht⟩

/-- Witness for claim C6: two scans of rssi `-50` and `-60` in the first of
two buckets average to `-55`. -/
theorem claim_C6_witness :
    (lookup2 (getAverageRssiPerDevicePerNode dataTwoScans 20 20).avgRssiPerDev
        "D" "A").map List.length = some (startTimesOf dataTwoScans 20 20).length
  ∧ (lookup2 (getAverageRssiPerDevicePerNode dataTwoScans 20 20).avgRssiPerDev
        "D" "A").bind (fun l => l[0]?)
      = some (specAvgAt [⟨2, -50⟩, ⟨4, -60⟩] 0 20) :=
  claim_C6 dataTwoScans 20 20 "D" "A" [⟨2, -50⟩, ⟨4, -60⟩] 0 0
    (by with_unfolding_all decide) (by with_unfolding_all decide)

/-- Membership test spelt out as a proposition. -/
theorem inBucketB_true_iff (t0 w : ℤ) (t : ℚ) :
    inBucketB t0 w t = true ↔ (t0 : ℚ) ≤ t ∧ t < (t0 : ℚ) + (w : ℚ) := by
  simp [inBucketB]

/-- The bucket count of a single entry is one or zero by the window test. -/
theorem bucketCount_singleton (e : ScanEntry) (t0 w : ℤ) :
    bucketCount [e] t0 w = if inBucketB t0 w e.time then 1 else 0 := by
  simp [bucketCount]

/-- Consecutive bucket start times differ by the step size. -/
theorem startTimesOf_step (data : ScanData) (w s : ℤ) (hs : 0 < s)
    (i : ℕ) (t0 t1 : ℤ)
    (h0 : (startTimesOf data w s)[i]? = some t0)
    (h1 : (startTimesOf data w s)[i + 1]? = some t1) :
    t1 = t0 + s := by
  have g0 := startTimesOf_getElem data w s hs i
  have g1 := startTimesOf_getElem data w s hs (i + 1)
  rw [h0] at g0
  rw [h1] at g1
  split at g0
  case isTrue hc0 =>
    split at g1
    case isTrue hc1 =>
      have e0 : t0 = pyInt data.startTimestamp + (i : ℤ) * s := by
        exact (Option.some.injEq _ _).mp g0
      have e1 : t1 = pyInt data.startTimestamp + ((i + 1 : ℕ) : ℤ) * s := by
        exact (Option.some.injEq _ _).mp g1
      rw [e0, e1]
      push_cast
      ring
    case isFalse => exact absurd g1 (by simp)
  case isFalse => exact absurd g0 (by simp)

/-- Claim C5 (amended: the boundary scan at `startTimes[i] + windowSize` is
counted in bucket `i+1` only when `stepSize ≤ windowSize`; with
`stepSize > windowSize` it falls in the gap between the buckets and is
counted in neither — see the counterexample): bucket membership is the
half-open window test; the boundary scan is never counted in bucket `i`,
is counted in bucket `i+1` when `stepSize ≤ windowSize`, and when
`stepSize < windowSize` the scan at time `startTimes[i+1]` is counted in
both buckets `i` and `i+1`. -/
theorem claim_C5 (data : ScanData) (w s t0 t1 : ℤ) (entries : List ScanEntry)
    (r : ℚ) (i : ℕ) (hw : 0 < w) (hs : 0 < s)
    (h0 : (startTimesOf data w s)[i]? = some t0)
    (h1 : (startTimesOf data w s)[i + 1]? = some t1) :
    (bucketCount entries t0 w
        = ((entries.filter (fun e => inBucketB t0 w e.time)).length : ℚ))
  ∧ bucketCount [⟨(t0 : ℚ) + (w : ℚ), r⟩] t0 w = 0
  ∧ (s ≤ w → bucketCount [⟨(t0 : ℚ) + (w : ℚ), r⟩] t1 w = 1)
  ∧ (s < w → bucketCount [⟨(t1 : ℚ), r⟩] t0 w = 1
        ∧ bucketCount [⟨(t1 : ℚ), r⟩] t1 w = 1) := by
  have hts : t1 = t0 + s := startTimesOf_step data w s hs i t0 t1 h0 h1
  have hwQ : (0 : ℚ) < (w : ℚ) := by exact_mod_cast hw
  have hsQ : (0 : ℚ) < (s : ℚ) := by exact_mod_cast hs
  have ht1Q : (t1 : ℚ) = (t0 : ℚ) + (s : ℚ) := by exact_mod_cast hts
  refine ⟨bucketCount_eq_filter_length entries t0 w, ?_, ?_, ?_⟩
  · rw [bucketCount_singleton, if_neg]
    simp only [inBucketB_true_iff]
    intro hmem
    exact absurd hmem.2 (by simp)
  · intro hsw
    have hswQ : (s : ℚ) ≤ (w : ℚ) := by exact_mod_cast hsw
    rw [bucketCount_singleton, if_pos]
    rw [inBucketB_true_iff, ht1Q]
    dsimp only
    constructor
    · linarith
    · linarith
  · intro hsw
    have hswQ : (s : ℚ) < (w : ℚ) := by exact_mod_cast hsw
    constructor
    · rw [bucketCount_singleton, if_pos]
      rw [inBucketB_true_iff, ht1Q]
      dsimp only
      constructor
      · linarith
      · linarith
    · rw [bucketCount_singleton, if_pos]
      rw [inBucketB_true_iff]
      dsimp only
      constructor
      · linarith
      · linarith

/-- Witness for claim C5 with `windowSize = 20`, `stepSize = 10` on the
buckets starting at `0` and `10`. -/
theorem claim_C5_witness :
    (bucketCount [] 0 20
        = ((List.filter (fun e => inBucketB 0 20 e.time)
              ([] : List ScanEntry)).length : ℚ))
  ∧ bucketCount [⟨((0 : ℤ) : ℚ) + ((20 : ℤ) : ℚ), -60⟩] 0 20 = 0
  ∧ bucketCount [⟨((0 : ℤ) : ℚ) + ((20 : ℤ) : ℚ), -60⟩] 10 20 = 1
  ∧ (bucketCount [⟨((10 : ℤ) : ℚ), -60⟩] 0 20 = 1
        ∧ bucketCount [⟨((10 : ℤ) : ℚ), -60⟩] 10 20 = 1) := by
  have h := claim_C5 ⟨[], 0, 35⟩ 20 10 0 10 [] (-60) 0 (by norm_num) (by norm_num)
      (by with_unfolding_all decide) (by with_unfolding_all decide)
  exact ⟨h.1, h.2.1, h.2.2.1 (by norm_num), h.2.2.2 (by norm_num)⟩

/-- Counterexample to claim C5 as stated: with `windowSize = 2`,
`stepSize = 10` the buckets start at `0` and `10`; the scan exactly at
`startTimes[0] + windowSize = 2` is counted neither in bucket `0` nor in
the existing bucket `1`, while the claim places it in bucket `1`. -/
theorem claim_C5_counterexample :
    (startTimesOf dataGap 2 10)[0]? = some 0
  ∧ (startTimesOf dataGap 2 10)[1]? = some 10
  ∧ bucketCount [⟨((0 : ℤ) : ℚ) + ((2 : ℤ) : ℚ), -60⟩] 10 2 = 0
  ∧ bucketCount [⟨((0 : ℤ) : ℚ) + ((2 : ℤ) : ℚ), -60⟩] 0 2 = 0 := by
  with_unfolding_all decide

/-- The running minimum tracked by the indexer is a fold over the rssi
values of one node's records. -/
theorem foldRecs_min (n : String) (recs : List ScanRec) (acc : ScanIndex) :
    (recs.foldl (indexScan n) acc).minRssi
      = (recs.map (fun e => e.rssi)).foldl
          (fun m r => if r < m then r else m) acc.minRssi := by
  induction recs generalizing acc with
  | nil => rfl
  | cons e rest ih =>
      simp only [List.foldl_cons, List.map_cons]
      rw [ih]
      rfl

/-- The running maximum tracked by the indexer is a fold over the rssi
values of one node's records. -/
theorem foldRecs_max (n : String) (recs : List ScanRec) (acc : ScanIndex) :
    (recs.foldl (indexScan n) acc).maxRssi
      = (recs.map (fun e => e.rssi)).foldl
          (fun m r => if r > m then r else m) acc.maxRssi := by
  induction recs generalizing acc with
  | nil => rfl
  | cons e rest ih =>
      simp only [List.foldl_cons, List.map_cons]
      rw [ih]
      rfl

/-- The dataset-wide minimum is a fold over all rssi values from `127`. -/
theorem getScans_min (data : ScanData) :
    (getScansPerDevicePerNode data).minRssi
      = (datasetRssis data).foldl (fun m r => if r < m then r else m) 127 := by
  unfold getScansPerDevicePerNode datasetRssis
  generalize hacc : (⟨[], 127, -127⟩ : ScanIndex) = acc
  have hmin : acc.minRssi = 127 := by rw [← hacc]
  rw [← hmin]
  clear hacc hmin
  induction data.scans generalizing acc with
  | nil => rfl
  | cons nd rest ih =>
      simp only [List.foldl_cons, List.map_cons, List.flatten_cons, List.foldl_append]
      rw [ih, foldRecs_min]

/-- The dataset-wide maximum is a fold over all rssi values from `-127`. -/
theorem getScans_max (data : ScanData) :
    (getScansPerDevicePerNode data).maxRssi
      = (datasetRssis data).foldl (fun m r => if r > m then r else m) (-127) := by
  unfold getScansPerDevicePerNode datasetRssis
  generalize hacc : (⟨[], 127, -127⟩ : ScanIndex) = acc
  have hmax : acc.maxRssi = -127 := by rw [← hacc]
  rw [← hmax]
  clear hacc hmax
  induction data.scans generalizing acc with
  | nil => rfl
  | cons nd rest ih =>
      simp only [List.foldl_cons, List.map_cons, List.flatten_cons, List.foldl_append]
      rw [ih, foldRecs_max]

/-- A running-minimum fold bounds its seed and every list element from below. -/
theorem foldl_minUpd_le (l : List ℚ) (c : ℚ) :
    l.foldl (fun m r => if r < m then r else m) c ≤ c
  ∧ ∀ r ∈ l, l.foldl (fun m r => if r < m then r else m) c ≤ r := by
  induction l generalizing c with
  | nil => simp
  | cons a l ih =>
      simp only [List.foldl_cons]
      have hstep1 : (if a < c then a else c) ≤ c := by
        split
        next h => exact le_of_lt h
        next h => exact le_refl c
      have hstep2 : (if a < c then a else c) ≤ a := by
        split
        next h => exact le_refl a
        next h => exact le_of_not_lt h
      refine ⟨le_trans (ih _).1 hstep1, ?_⟩
      intro r hr
      rcases List.mem_cons.mp hr with h | h
      · subst h
        exact le_trans (ih _).1 hstep2
      · exact (ih _).2 r h

/-- A running-maximum fold bounds its seed and every list element from above. -/
theorem foldl_maxUpd_ge (l : List ℚ) (c : ℚ) :
    c ≤ l.foldl (fun m r => if r > m then r else m) c
  ∧ ∀ r ∈ l, r ≤ l.foldl (fun m r => if r > m then r else m) c := by
  induction l generalizing c with
  | nil => simp
  | cons a l ih =>
      simp only [List.foldl_cons]
      have hstep1 : c ≤ (if a > c then a else c) := by
        split
        next h => exact le_of_lt h
        next h => exact le_refl c
      have hstep2 : a ≤ (if a > c then a else c) := by
        split
        next h => exact le_refl a
        next h => exact le_of_not_lt h
      refine ⟨le_trans hstep1 (ih _).1, ?_⟩
      intro r hr
      rcases List.mem_cons.mp hr with h | h
      · subst h
        exact le_trans hstep2 (ih _).1
      · exact (ih _).2 r h

/-- Claim C8: every rssi value of the dataset lies between the returned
`minRssi` and `maxRssi` (hence `minRssi ≤ maxRssi` when a scan exists), and
an empty dataset yields the sentinels `127` and `-127`. -/
theorem claim_C8 (data : ScanData) :
    (∀ r ∈ datasetRssis data,
        (getScansPerDevicePerNode data).minRssi ≤ r
      ∧ r ≤ (getScansPerDevicePerNode data).maxRssi
      ∧ (getScansPerDevicePerNode data).minRssi
          ≤ (getScansPerDevicePerNode data).maxRssi)
  ∧ (datasetRssis data = []
      → (getScansPerDevicePerNode data).minRssi = 127
      ∧ (getScansPerDevicePerNode data).maxRssi = -127) := by
  constructor
  · intro r hr
    have hmin : (getScansPerDevicePerNode data).minRssi ≤ r := by
      rw [getScans_min]
      exact (foldl_minUpd_le (datasetRssis data) 127).2 r hr
    have hmax : r ≤ (getScansPerDevicePerNode data).maxRssi := by
      rw [getScans_max]
      exact (foldl_maxUpd_ge (datasetRssis data) (-127)).2 r hr
    exact ⟨hmin, hmax, le_trans hmin hmax⟩
  · intro hempty
    constructor
    · rw [getScans_min, hempty]
      rfl
    · rw [getScans_max, hempty]
      rfl

/-- Witness for claim C8: the bounds at rssi `-55` of the two-bucket
dataset, and the sentinels of an empty dataset. -/
theorem claim_C8_witness :
    ((getScansPerDevicePerNode dataTwoBuckets).minRssi ≤ -55
      ∧ -55 ≤ (getScansPerDevicePerNode dataTwoBuckets).maxRssi
      ∧ (getScansPerDevicePerNode dataTwoBuckets).minRssi
          ≤ (getScansPerDevicePerNode dataTwoBuckets).maxRssi)
  ∧ ((getScansPerDevicePerNode ⟨[], 0, 1⟩).minRssi = 127
      ∧ (getScansPerDevicePerNode ⟨[], 0, 1⟩).maxRssi = -127) :=
  ⟨(claim_C8 dataTwoBuckets).1 (-55) (by with_unfolding_all decide),
   (claim_C8 ⟨[], 0, 1⟩).2 (by with_unfolding_all decide)⟩

/-- A successful `mapME` run produces as many results as inputs. -/
theorem mapME_ok_length {ε α β : Type _} (f : α → Except ε β) (l : List α)
    (ys : List β) (h : mapME f l = Except.ok ys) : ys.length = l.length := by
  induction l generalizing ys with
  | nil =>
      unfold mapME at h
      cases h
      rfl
  | cons x l ih =>
      unfold mapME at h
      cases hfx : f x with
      | error e => rw [hfx] at h; exact absurd h (by simp)
      | ok b =>
          rw [hfx] at h
          cases hrest : mapME f l with
          | error e => rw [hrest] at h; exact absurd h (by simp)
          | ok bs =>
              rw [hrest] at h
              cases h
              simp [ih bs hrest]

/-- A successful `mapME` run computes each output from the matching input. -/
theorem mapME_ok_getElem {ε α β : Type _} (f : α → Except ε β) (l : List α)
    (ys : List β) (h : mapME f l = Except.ok ys) (i : ℕ) (a : α)
    (ha : l[i]? = some a) :
    ∃ b, ys[i]? = some b ∧ f a = Except.ok b := by
  induction l generalizing ys i with
  | nil => simp at ha
  | cons x l ih =>
      unfold mapME at h
      cases hfx : f x with
      | error e => rw [hfx] at h; exact absurd h (by simp)
      | ok b =>
          rw [hfx] at h
          cases hrest : mapME f l with
          | error e => rw [hrest] at h; exact absurd h (by simp)
          | ok bs =>
              rw [hrest] at h
              cases h
              cases i with
              | zero =>
                  simp only [List.getElem?_cons_zero] at ha
                  cases ha
                  exact ⟨b, by simp, hfx⟩
              | succ j =>
                  simp only [List.getElem?_cons_succ] at ha
                  obtain ⟨b2, hb2, hfb2⟩ := ih bs hrest j ha
                  exact ⟨b2, by simpa using hb2, hfb2⟩

/-- A failing `mapME` run fails on one of its inputs. -/
theorem mapME_error_mem {ε α β : Type _} (f : α → Except ε β) (l : List α)
    (e : ε) (h : mapME f l = Except.error e) : ∃ a ∈ l, f a = Except.error e := by
  induction l with
  | nil =>
      unfold mapME at h
      exact absurd h (by simp)
  | cons x l ih =>
      unfold mapME at h
      cases hfx : f x with
      | error e2 =>
          rw [hfx] at h
          cases h
          exact ⟨x, by simp, hfx⟩
      | ok b =>
          rw [hfx] at h
          cases hrest : mapME f l with
          | error e2 =>
              rw [hrest] at h
              cases h
              obtain ⟨a, hmem, hfa⟩ := ih hrest
              exact ⟨a, by simp [hmem], hfa⟩
          | ok bs =>
              rw [hrest] at h
              exact absurd h (by simp)

/-- When every element succeeds with a known value, `mapME` is the map. -/
theorem mapME_ok_map {ε α β : Type _} (f : α → Except ε β) (g : α → β)
    (l : List α) (h : ∀ a ∈ l, f a = Except.ok (g a)) :
    mapME f l = Except.ok (l.map g) := by
  induction l with
  | nil => rfl
  | cons x l ih =>
      unfold mapME
      rw [h x (by simp), ih (fun a ha => h a (by simp [ha]))]
      rfl

/-- A successful centroid accumulation finds every node location and adds up
the weighted coordinates. -/
theorem accumCentroid_ok (locs : List (String × NodeLoc)) (W : ℚ)
    (ws : List (String × ℚ)) (acc p : ℚ × ℚ)
    (h : accumCentroid locs W ws acc = Except.ok p) :
    (∀ q ∈ ws, (lookupA locs q.1).isSome = true)
  ∧ p.1 = acc.1
      + (ws.map (fun q => q.2 / W * ((lookupA locs q.1).getD ⟨0, 0⟩).x)).sum
  ∧ p.2 = acc.2
      + (ws.map (fun q => q.2 / W * ((lookupA locs q.1).getD ⟨0, 0⟩).y)).sum := by
  induction ws generalizing acc with
  | nil =>
      unfold accumCentroid at h
      cases h
      simp
  | cons q ws ih =>
      unfold accumCentroid at h
      cases hl : lookupA locs q.1 with
      | none => rw [hl] at h; exact absurd h (by simp)
      | some loc =>
          rw [hl] at h
          obtain ⟨hall, h1, h2⟩ := ih _ h
          refine ⟨?_, ?_, ?_⟩
          · intro q2 hq2
            rcases List.mem_cons.mp hq2 with hq | hq
            · subst hq
              simp [hl]
            · exact hall q2 hq
          · rw [h1]
            simp only [List.map_cons, List.sum_cons, hl, Option.getD_some]
            ring
          · rw [h2]
            simp only [List.map_cons, List.sum_cons, hl, Option.getD_some]
            ring

/-- A failing centroid accumulation names a node of the weight list that is
missing from the location table. -/
theorem accumCentroid_error (locs : List (String × NodeLoc)) (W : ℚ)
    (ws : List (String × ℚ)) (acc : ℚ × ℚ) (e : String)
    (h : accumCentroid locs W ws acc = Except.error e) :
    lookupA locs e = none ∧ e ∈ ws.map Prod.fst := by
  induction ws generalizing acc with
  | nil =>
      unfold accumCentroid at h
      exact absurd h (by simp)
  | cons q ws ih =>
      unfold accumCentroid at h
      cases hl : lookupA locs q.1 with
      | none =>
          rw [hl] at h
          cases h
          exact ⟨hl, by simp⟩
      | some loc =>
          rw [hl] at h
          obtain ⟨h1, h2⟩ := ih _ h
          exact ⟨h1, by simp [h2]⟩

/-- The code-side weight equals the spec-side weight. -/
theorem weightFor_eq_spec (avgDev : List (String × List ℚ)) (n : String) (i : ℕ) :
    weightFor avgDev n i = specWeight avgDev i n := rfl

/-- The folded weight sum of a bucket equals the spec-side sum of weights
over the node addresses. -/
theorem bucketPos_weightSum (nodes : List (String × List ℚ))
    (avgDev : List (String × List ℚ)) (i : ℕ) :
    bucketWeightSum (bucketWeights nodes avgDev i)
      = ((nodes.map Prod.fst).map (specWeight avgDev i)).sum := by
  unfold bucketWeightSum bucketWeights
  rw [foldl_add_map (fun p : String × ℚ => p.2) _ 0, zero_add]
  simp only [List.map_map]
  rfl

/-- A bucket that the localizer computes without raising carries exactly the
spec-side per-bucket position. -/
theorem bucketPos_ok (nodes avgDev : List (String × List ℚ))
    (locs : List (String × NodeLoc)) (i : ℕ) (o : Option (ℚ × ℚ))
    (h : bucketPos nodes avgDev locs i = Except.ok o) :
    o = specBucketPos (nodes.map Prod.fst) avgDev locs i := by
  unfold bucketPos at h
  unfold specBucketPos
  rw [bucketPos_weightSum nodes avgDev i] at h
  by_cases hlt : ((nodes.map Prod.fst).map (specWeight avgDev i)).sum < 1
  · rw [if_pos hlt] at h
    rw [if_pos hlt]
    cases h
    rfl
  · rw [if_neg hlt] at h
    rw [if_neg hlt]
    cases hacc : accumCentroid locs
        (((nodes.map Prod.fst).map (specWeight avgDev i)).sum)
        (bucketWeights nodes avgDev i) (0, 0) with
    | error e =>
        rw [hacc] at h
        exact absurd h (by simp [Except.map])
    | ok p =>
        rw [hacc] at h
        obtain ⟨_, h1, h2⟩ := accumCentroid_ok _ _ _ _ _ hacc
        have ho : o = some p := by
          cases h
          rfl
        subst ho
        rw [Option.some.injEq]
        have hx : p.1 = ((nodes.map Prod.fst).map (fun n =>
            specWeight avgDev i n
              / ((nodes.map Prod.fst).map (specWeight avgDev i)).sum
              * ((lookupA locs n).getD ⟨0, 0⟩).x)).sum := by
          rw [h1]
          unfold bucketWeights
          simp only [List.map_map, zero_add]
          rfl
        have hy : p.2 = ((nodes.map Prod.fst).map (fun n =>
            specWeight avgDev i n
              / ((nodes.map Prod.fst).map (specWeight avgDev i)).sum
              * ((lookupA locs n).getD ⟨0, 0⟩).y)).sum := by
          rw [h2]
          unfold bucketWeights
          simp only [List.map_map, zero_add]
          rfl
        exact Prod.ext hx hy

/-- A raising bucket names a node of the device's aggregate that is missing
from the location table. -/
theorem bucketPos_error (nodes avgDev : List (String × List ℚ))
    (locs : List (String × NodeLoc)) (i : ℕ) (e : String)
    (h : bucketPos nodes avgDev locs i = Except.error e) :
    lookupA locs e = none ∧ e ∈ nodes.map Prod.fst := by
  unfold bucketPos at h
  split at h
  · exact absurd h (by simp)
  · cases hacc : accumCentroid locs
        (bucketWeightSum (bucketWeights nodes avgDev i))
        (bucketWeights nodes avgDev i) (0, 0) with
    | error e2 =>
        rw [hacc] at h
        have he : e2 = e := by
          simpa [Except.map] using h
        subst he
        obtain ⟨h1, h2⟩ := accumCentroid_error _ _ _ _ _ hacc
        refine ⟨h1, ?_⟩
        unfold bucketWeights at h2
        simpa [List.map_map] using h2
    | ok p =>
        rw [hacc] at h
        exact absurd h (by simp [Except.map])

/-- A bucket for which the localizer emits an actual position has found a
location for every node of the device's aggregate. -/
theorem bucketPos_ok_some (nodes avgDev : List (String × List ℚ))
    (locs : List (String × NodeLoc)) (i : ℕ) (p : ℚ × ℚ)
    (h : bucketPos nodes avgDev locs i = Except.ok (some p)) :
    ∀ q ∈ nodes, (lookupA locs q.1).isSome = true := by
  unfold bucketPos at h
  split at h
  · exact absurd h (by simp)
  · cases hacc : accumCentroid locs
        (bucketWeightSum (bucketWeights nodes avgDev i))
        (bucketWeights nodes avgDev i) (0, 0) with
    | error e2 =>
        rw [hacc] at h
        exact absurd h (by simp [Except.map])
    | ok p2 =>
        have hall := (accumCentroid_ok _ _ _ _ _ hacc).1
        intro q hq
        exact hall (q.1, weightFor avgDev q.1 i)
          (List.mem_map_of_mem (fun nd => (nd.1, weightFor avgDev nd.1 i)) hq)

/-- The frequency result carries the bucket sequence unchanged. -/
theorem freq_startTimes (data : ScanData) (w s : ℤ) :
    (getFrequencyPerDevicePerNode data w s).startTimes = startTimesOf data w s := rfl

/-- A successful per-device run keeps the device key and wraps the buckets. -/
theorem devicePath_ok (avg : AvgResult) (locs : List (String × NodeLoc))
    (st : List ℤ) (dev : String × List (String × List ℚ))
    (val : String × List (Option (ℚ × ℚ)))
    (h : devicePath avg locs st dev = Except.ok val) :
    val.1 = dev.1
  ∧ mapME (bucketPos dev.2 ((lookupA avg.avgRssiPerDev dev.1).getD []) locs)
      (List.range st.length) = Except.ok val.2 := by
  unfold devicePath at h
  cases hm : mapME (bucketPos dev.2 ((lookupA avg.avgRssiPerDev dev.1).getD []) locs)
      (List.range st.length) with
  | error e =>
      rw [hm] at h
      exact absurd h (by simp [Except.map])
  | ok buckets =>
      rw [hm] at h
      have hv : (dev.1, buckets) = val := by
        simpa [Except.map] using h
      cases hv
      exact ⟨rfl, rfl⟩

/-- A failing per-device run is a failing bucket run. -/
theorem devicePath_error (avg : AvgResult) (locs : List (String × NodeLoc))
    (st : List ℤ) (dev : String × List (String × List ℚ)) (e : String)
    (h : devicePath avg locs st dev = Except.error e) :
    mapME (bucketPos dev.2 ((lookupA avg.avgRssiPerDev dev.1).getD []) locs)
      (List.range st.length) = Except.error e := by
  unfold devicePath at h
  cases hm : mapME (bucketPos dev.2 ((lookupA avg.avgRssiPerDev dev.1).getD []) locs)
      (List.range st.length) with
  | error e2 =>
      rw [hm] at h
      have he : e2 = e := by
        simpa [Except.map] using h
      subst he
      rfl
  | ok buckets =>
      rw [hm] at h
      exact absurd h (by simp [Except.map])

/-- A successful localization run is a successful run over all devices. -/
theorem getPath_ok_elim (data : ScanData) (w s : ℤ)
    (locs : List (String × NodeLoc)) (res : PathResult)
    (h : getPathPerDevice data w s locs = Except.ok res) :
    res.startTimes = startTimesOf data w s
  ∧ mapME (devicePath (getAverageRssiPerDevicePerNode data w s) locs
        (startTimesOf data w s))
      (getFrequencyPerDevicePerNode data w s).numScansPerDev
      = Except.ok res.pathPerDevice := by
  unfold getPathPerDevice at h
  cases hm : mapME (devicePath (getAverageRssiPerDevicePerNode data w s) locs
      (getFrequencyPerDevicePerNode data w s).startTimes)
      (getFrequencyPerDevicePerNode data w s).numScansPerDev with
  | error e =>
      rw [hm] at h
      exact absurd h (by simp [Except.map])
  | ok paths =>
      rw [hm] at h
      have hv : ({ pathPerDevice := paths
                   startTimes := (getFrequencyPerDevicePerNode data w s).startTimes }
                  : PathResult) = res := by
        simpa [Except.map] using h
      cases hv
      exact ⟨rfl, hm⟩

/-- A failing localization run is a failing run over some device. -/
theorem getPath_error_elim (data : ScanData) (w s : ℤ)
    (locs : List (String × NodeLoc)) (e : String)
    (h : getPathPerDevice data w s locs = Except.error e) :
    mapME (devicePath (getAverageRssiPerDevicePerNode data w s) locs
        (startTimesOf data w s))
      (getFrequencyPerDevicePerNode data w s).numScansPerDev
      = Except.error e := by
  unfold getPathPerDevice at h
  cases hm : mapME (devicePath (getAverageRssiPerDevicePerNode data w s) locs
      (getFrequencyPerDevicePerNode data w s).startTimes)
      (getFrequencyPerDevicePerNode data w s).numScansPerDev with
  | error e2 =>
      rw [hm] at h
      have he : e2 = e := by
        simpa [Except.map] using h
      subst he
      exact hm
  | ok paths =>
      rw [hm] at h
      exact absurd h (by simp [Except.map])

/-- Looking up a device in a successful localization output yields the
bucket run of that device's frequency aggregate. -/
theorem mapME_devicePath_lookup (avg : AvgResult) (locs : List (String × NodeLoc))
    (st : List ℤ) (L : List (String × List (String × List ℚ)))
    (P : List (String × List (Option (ℚ × ℚ)))) (dev : String)
    (nodes : List (String × List ℚ))
    (hM : mapME (devicePath avg locs st) L = Except.ok P)
    (hL : lookupA L dev = some nodes) :
    ∃ buckets, lookupA P dev = some buckets
      ∧ mapME (bucketPos nodes ((lookupA avg.avgRssiPerDev dev).getD []) locs)
          (List.range st.length) = Except.ok buckets := by
  induction L generalizing P with
  | nil => exact absurd hL (by simp [lookupA])
  | cons x L ih =>
      unfold mapME at hM
      cases hfx : devicePath avg locs st x with
      | error e =>
          rw [hfx] at hM
          exact absurd hM (by simp)
      | ok val =>
          rw [hfx] at hM
          cases hrest : mapME (devicePath avg locs st) L with
          | error e =>
              rw [hrest] at hM
              exact absurd hM (by simp)
          | ok P2 =>
              rw [hrest] at hM
              cases hM
              obtain ⟨hv1, hv2⟩ := devicePath_ok avg locs st x val hfx
              unfold lookupA at hL
              by_cases hk : x.1 = dev
              · rw [if_pos hk] at hL
                cases hL
                refine ⟨val.2, ?_, ?_⟩
                · unfold lookupA
                  rw [if_pos (by rw [hv1, hk])]
                · rw [hk] at hv2
                  exact hv2
              · rw [if_neg hk] at hL
                obtain ⟨buckets, hP2, hmb⟩ := ih P2 hrest hL
                refine ⟨buckets, ?_, hmb⟩
                unfold lookupA
                rw [if_neg (by rw [hv1]; exact hk)]
                exact hP2

/-- Claim C2: in a successful localization run, bucket `i` of a device's
path is the spec-side position: weights `(avgRssi[n][i] + 105.0)^2` over the
nodes with an entry for the device, the `(NaN, NaN)` marker (here `none`)
when their sum is below `1.0`, and the weighted centroid of the node
locations otherwise. -/
theorem claim_C2 (data : ScanData) (w s : ℤ) (locs : List (String × NodeLoc))
    (res : PathResult) (dev : String) (nodes avgDev : List (String × List ℚ))
    (buckets : List (Option (ℚ × ℚ))) (i : ℕ)
    (hok : getPathPerDevice data w s locs = Except.ok res)
    (hf : lookupA (getFrequencyPerDevicePerNode data w s).numScansPerDev dev
        = some nodes)
    (ha : lookupA (getAverageRssiPerDevicePerNode data w s).avgRssiPerDev dev
        = some avgDev)
    (hp : lookupA res.pathPerDevice dev = some buckets)
    (hi : i < (startTimesOf data w s).length) :
    buckets[i]? = some (specBucketPos (nodes.map Prod.fst) avgDev locs i) := by
  obtain ⟨hst, hM⟩ := getPath_ok_elim data w s locs res hok
  obtain ⟨buckets2, hb2, hmb⟩ :=
    mapME_devicePath_lookup _ locs _ _ _ dev nodes hM hf
  rw [hp] at hb2
  cases hb2
  rw [ha] at hmb
  simp only [Option.getD_some] at hmb
  have hri : (List.range (startTimesOf data w s).length)[i]? = some i :=
    List.getElem?_range hi
  obtain ⟨b, hbi, hfb⟩ := mapME_ok_getElem _ _ _ hmb i i hri
  rw [hbi, bucketPos_ok nodes avgDev locs i b hfb]

/-- Witness for claim C2 at the two-bucket scenario: the second bucket of
device `D` is the spec-side centroid. -/
theorem claim_C2_witness :
    ([none, some ((0 : ℚ), (0 : ℚ))] : List (Option (ℚ × ℚ)))[1]?
      = some (specBucketPos ([("A", [(1 : ℚ)])].map Prod.fst)
          [("A", [-105, -55])] locA 1) :=
  claim_C2 dataTwoBuckets 20 20 locA
    ⟨[("D", [none, some (0, 0)])], [0, 20]⟩ "D"
    [("A", [1])] [("A", [-105, -55])] [none, some (0, 0)] 1
    (by with_unfolding_all rfl)
    (by with_unfolding_all decide)
    (by with_unfolding_all decide)
    (by with_unfolding_all decide)
    (by with_unfolding_all decide)

/-- Claim C4 (amended: the failure is raised only when some bucket of some
device reaches the centroid loop, i.e. has weight sum at least `1.0`; when
every bucket of every device has weight sum below `1.0` the function
returns normally even though a node of the aggregates has no location —
see the counterexample): any error of `getPathPerDevice` names a node of
the frequency aggregates that has no entry in `nodeLocations`, and whenever
an actual position is emitted for a device and bucket, every node with an
entry for that device was found in `nodeLocations` — no node is silently
skipped from a computed centroid. -/
theorem claim_C4 (data : ScanData) (w s : ℤ) (locs : List (String × NodeLoc)) :
    (∀ e, getPathPerDevice data w s locs = Except.error e
        → lookupA locs e = none
        ∧ freqHasNode (getFrequencyPerDevicePerNode data w s).numScansPerDev e
            = true)
  ∧ (∀ (res : PathResult) (dev : String) (nodes : List (String × List ℚ))
        (buckets : List (Option (ℚ × ℚ))) (i : ℕ) (p : ℚ × ℚ),
        getPathPerDevice data w s locs = Except.ok res
        → lookupA (getFrequencyPerDevicePerNode data w s).numScansPerDev dev
            = some nodes
        → lookupA res.pathPerDevice dev = some buckets
        → buckets[i]? = some (some p)
        → nodes.all (fun q => (lookupA locs q.1).isSome) = true) := by
  constructor
  · intro e herr
    have hM := getPath_error_elim data w s locs e herr
    obtain ⟨devp, hdevmem, hdev⟩ := mapME_error_mem _ _ _ hM
    have hib := devicePath_error _ _ _ _ _ hdev
    obtain ⟨iix, _, hbp⟩ := mapME_error_mem _ _ _ hib
    obtain ⟨hnone, hmem⟩ := bucketPos_error _ _ _ _ _ hbp
    refine ⟨hnone, ?_⟩
    unfold freqHasNode
    rw [List.any_eq_true]
    refine ⟨devp, hdevmem, ?_⟩
    rw [List.any_eq_true]
    obtain ⟨q, hq, hq1⟩ := List.mem_map.mp hmem
    exact ⟨q, hq, by simp [hq1]⟩
  · intro res dev nodes buckets i p hok hf hp hbi
    obtain ⟨_, hM⟩ := getPath_ok_elim data w s locs res hok
    obtain ⟨buckets2, hb2, hmb⟩ :=
      mapME_devicePath_lookup _ locs _ _ _ dev nodes hM hf
    rw [hp] at hb2
    cases hb2
    have hlen : buckets.length
        = (List.range (startTimesOf data w s).length).length :=
      mapME_ok_length _ _ _ hmb
    rw [List.length_range] at hlen
    have hilt : i < buckets.length := by
      by_contra hcon
      rw [List.getElem?_eq_none (by omega)] at hbi
      exact Option.noConfusion hbi
    have hri : (List.range (startTimesOf data w s).length)[i]? = some i :=
      List.getElem?_range (by omega)
    obtain ⟨b, hbi2, hfb⟩ := mapME_ok_getElem _ _ _ hmb i i hri
    rw [hbi] at hbi2
    cases hbi2
    have hall := bucketPos_ok_some nodes _ locs i p hfb
    rw [List.all_eq_true]
    intro q hq
    exact hall q hq

/-- Witness for claim C4: with node `A` missing from the table the run on
the two-bucket data fails naming `A`; with `A` present, the bucket that
emits a position has found every node. -/
theorem claim_C4_witness :
    (lookupA ([] : List (String × NodeLoc)) "A" = none
      ∧ freqHasNode (getFrequencyPerDevicePerNode dataTwoBuckets 20 20).numScansPerDev
          "A" = true)
  ∧ ([("A", [(1 : ℚ)])] : List (String × List ℚ)).all
        (fun q => (lookupA locA q.1).isSome) = true :=
  ⟨(claim_C4 dataTwoBuckets 20 20 []).1 "A" (by with_unfolding_all rfl),
   (claim_C4 dataTwoBuckets 20 20 locA).2
     ⟨[("D", [none, some (0, 0)])], [0, 20]⟩ "D"
     [("A", [1])] [none, some (0, 0)] 1 (0, 0)
     (by with_unfolding_all rfl)
     (by with_unfolding_all decide)
     (by with_unfolding_all decide)
     (by with_unfolding_all decide)⟩

/-- Counterexample to claim C4 as stated: in `dataGap` the node `A` appears
in the aggregates for device `D` but has no entry in the empty location
table, yet `getPathPerDevice` succeeds (every bucket has weight sum `0`,
so the location table is never consulted). -/
theorem claim_C4_counterexample :
    freqHasNode (getFrequencyPerDevicePerNode dataGap 2 10).numScansPerDev "A" = true
  ∧ lookupA ([] : List (String × NodeLoc)) "A" = none
  ∧ (getPathPerDevice dataGap 2 10 []).toOption
      = some ⟨[("D", [none, none])], [0, 10]⟩ := by
  with_unfolding_all decide

/-- Claim C10: with at most one bucket, the frequency view maps every device
to an empty node dict, and the localizer consequently emits the `(NaN, NaN)`
marker for every device in every (i.e. the at most one) bucket, regardless
of the recorded rssi values. -/
theorem claim_C10 (data : ScanData) (w s : ℤ) (locs : List (String × NodeLoc))
    (h1 : (startTimesOf data w s).length ≤ 1) :
    (getFrequencyPerDevicePerNode data w s).numScansPerDev.all
        (fun p => p.2.isEmpty) = true
  ∧ (getPathPerDevice data w s locs).toOption.map
        (fun res => res.pathPerDevice.all
          (fun p => decide
            (p.2 = List.replicate (startTimesOf data w s).length none)))
      = some true := by
  have hfreq : ∀ p ∈ (getFrequencyPerDevicePerNode data w s).numScansPerDev,
      p.2 = ([] : List (String × List ℚ)) := by
    intro p hp
    unfold getFrequencyPerDevicePerNode at hp
    obtain ⟨dev, hdev, hpd⟩ := List.mem_map.mp hp
    rw [← hpd]
    dsimp only
    rw [if_pos h1]
  have hpath : getPathPerDevice data w s locs
      = Except.ok
          ⟨(getFrequencyPerDevicePerNode data w s).numScansPerDev.map
              (fun dev => (dev.1, List.replicate (startTimesOf data w s).length none)),
            (getFrequencyPerDevicePerNode data w s).startTimes⟩ := by
    unfold getPathPerDevice
    rw [mapME_ok_map _
        (fun dev => (dev.1, List.replicate (startTimesOf data w s).length none)) _ ?_]
    · rfl
    · intro dev hdev
      unfold devicePath
      rw [mapME_ok_map _ (fun _ => (none : Option (ℚ × ℚ))) _ ?_]
      · simp [Except.map, freq_startTimes, List.map_const', List.length_range]
      · intro j hj
        rw [hfreq dev hdev]
        unfold bucketPos bucketWeights bucketWeightSum
        simp
  constructor
  · rw [List.all_eq_true]
    intro p hp
    rw [List.isEmpty_iff]
    exact hfreq p hp
  · rw [hpath]
    simp only [Except.toOption, Option.map_some', Option.some.injEq]
    rw [List.all_eq_true]
    intro p hp
    obtain ⟨dev, hdev, hpd⟩ := List.mem_map.mp hp
    rw [← hpd]
    simp

/-- Witness for claim C10 at the one-bucket scenario. -/
theorem claim_C10_witness :
    (getFrequencyPerDevicePerNode dataOneBucket 20 20).numScansPerDev.all
        (fun p => p.2.isEmpty) = true
  ∧ (getPathPerDevice dataOneBucket 20 20 locA).toOption.map
        (fun res => res.pathPerDevice.all
          (fun p => decide
            (p.2 = List.replicate (startTimesOf dataOneBucket 20 20).length none)))
      = some true :=
  claim_C10 dataOneBucket 20 20 locA (by with_unfolding_all decide)

/-- Claim C1 evaluated on the code: the bucket sequence is `[0]` and
`avgRssi[D][A][0] = -60` as the claim states, and the claim's own centroid
formula applied to that average (weight `(45)^2 = 2025 ≥ 1`) gives `(0, 0)`,
but `getPathPerDevice` returns the `(NaN, NaN)` marker for the single
bucket: the frequency view of a one-bucket sequence has no node keys, so
the localizer finds no nodes and a weight sum of `0`. -/
theorem claim_C1 :
    startTimesOf dataOneBucket 20 20 = [0]
  ∧ lookup2 (getAverageRssiPerDevicePerNode dataOneBucket 20 20).avgRssiPerDev
        "D" "A" = some [-60]
  ∧ specBucketPos ["A"] [("A", [-60])] locA 0 = some (0, 0)
  ∧ (getPathPerDevice dataOneBucket 20 20 locA).toOption
      = some ⟨[("D", [none])], [0]⟩ := by
  with_unfolding_all decide

/-- Folding over a flattened list of lists is the nested fold. -/
theorem foldl_flatten {α β : Type _} (L : List (List α)) (f : β → α → β) (b : β) :
    L.flatten.foldl f b = L.foldl (fun b l => l.foldl f b) b := by
  induction L generalizing b with
  | nil => rfl
  | cons x L ih => simp [List.flatten_cons, List.foldl_append, ih]

/-- The regrouper is a fold of its step function over all records in
processing order. -/
theorem getTimedMeasurements_eq_fold (datasets : List ScanData) (lo hi : Option ℚ) :
    getTimedMeasurements datasets lo hi
      = (allRecords datasets).foldl (fun st p => tmStep lo hi p.1 st p.2)
          ⟨[], -1, -1⟩ := by
  unfold getTimedMeasurements allRecords
  rw [foldl_flatten, List.foldl_map]
  congr 1
  funext st d
  rw [foldl_flatten, List.foldl_map]
  congr 1
  funext st2 nd
  rw [List.foldl_map]

/-- The code's skip conditions agree with the spec-side inclusive-range test. -/
theorem tmAccept_eq_spec (lo hi : Option ℚ) (t : ℚ) :
    tmAccept lo hi t = specAccept lo hi t := by
  rw [Bool.eq_iff_iff]
  cases lo <;> cases hi <;>
    simp [tmAccept, specAccept, Option.all, not_lt]

/-- The accepted-times list is the filter by the code's own test. -/
theorem acceptedTimes_eq (datasets : List ScanData) (lo hi : Option ℚ) :
    acceptedTimes datasets lo hi
      = ((allRecords datasets).filter (fun p => tmAccept lo hi p.2.time)).map
          (fun p => p.2.time) := by
  unfold acceptedTimes
  congr 1
  apply List.filter_congr
  intro p hp
  exact (tmAccept_eq_spec lo hi p.2.time).symm

/-- Measure-sum bookkeeping of an association-list update. -/
theorem msum_alUpdate {κ α : Type _} [DecidableEq κ] (m : α → ℕ)
    (l : List (κ × α)) (k : κ) (f : Option α → α) :
    ((alUpdate l k f).map (fun p => m p.2)).sum
        + ((lookupA l k).map m).getD 0
      = (l.map (fun p => m p.2)).sum + m (f (lookupA l k)) := by
  induction l with
  | nil => simp [alUpdate, lookupA]
  | cons x l ih =>
      unfold alUpdate lookupA
      by_cases hk : x.1 = k
      · rw [if_pos hk, if_pos hk]
        simp only [List.map_cons, List.sum_cons, Option.map_some', Option.getD_some]
        omega
      · rw [if_neg hk, if_neg hk]
        simp only [List.map_cons, List.sum_cons]
        omega

/-- An update that grows its slot by one grows the measure sum by one. -/
theorem msum_alUpdate_inc {κ α : Type _} [DecidableEq κ] (m : α → ℕ)
    (l : List (κ × α)) (k : κ) (f : Option α → α)
    (hf : ∀ o, m (f o) = ((o.map m).getD 0) + 1) :
    ((alUpdate l k f).map (fun p => m p.2)).sum
      = (l.map (fun p => m p.2)).sum + 1 := by
  have h := msum_alUpdate m l k f
  rw [hf (lookupA l k)] at h
  omega

/-- One regrouper step on an accepted record stores exactly one more rssi. -/
theorem tmStep_count (lo hi : Option ℚ) (node : String) (st : TimedResult)
    (e : ScanRec) :
    tmCount (tmStep lo hi node st e).data
      = tmCount st.data + (if tmAccept lo hi e.time then 1 else 0) := by
  unfold tmStep
  by_cases hacc : tmAccept lo hi e.time
  · rw [if_pos hacc, if_pos hacc]
    dsimp only
    unfold tmCount
    apply msum_alUpdate_inc
    intro o1
    have h1 : ((o1.map nodeCount).getD 0)
        = (((o1.getD []).map (fun p => devCount p.2)).sum) := by
      cases o1 <;> simp [nodeCount]
    rw [h1]
    unfold nodeCount
    apply msum_alUpdate_inc
    intro o2
    have h2 : ((o2.map devCount).getD 0)
        = (((o2.getD []).map (fun p => p.2.length)).sum) := by
      cases o2 <;> simp [devCount]
    rw [h2]
    unfold devCount
    apply msum_alUpdate_inc
    intro o3
    cases o3 <;> simp
  · rw [if_neg hacc, if_neg hacc]
    simp

/-- Folding the regrouper step counts the accepted records. -/
theorem tm_fold_count (lo hi : Option ℚ) (recs : List (String × ScanRec))
    (st : TimedResult) :
    tmCount ((recs.foldl (fun st p => tmStep lo hi p.1 st p.2) st).data)
      = tmCount st.data
        + (recs.filter (fun p => tmAccept lo hi p.2.time)).length := by
  induction recs generalizing st with
  | nil => simp
  | cons p recs ih =>
      simp only [List.foldl_cons, List.filter_cons]
      rw [ih, tmStep_count]
      by_cases hacc : tmAccept lo hi p.2.time
      · simp only [hacc, if_true, List.length_cons]
        omega
      · simp only [hacc, if_false]
        simp [hacc]

/-- The start-timestamp tracking of a fold of regrouper steps is a fold of
the min-or-unset update over the accepted times. -/
theorem tm_fold_start (lo hi : Option ℚ) (recs : List (String × ScanRec))
    (st : TimedResult) :
    (recs.foldl (fun st p => tmStep lo hi p.1 st p.2) st).startTimestamp
      = ((recs.filter (fun p => tmAccept lo hi p.2.time)).map
            (fun p => p.2.time)).foldl
          (fun a t => if t < a ∨ a = -1 then t else a) st.startTimestamp := by
  induction recs generalizing st with
  | nil => rfl
  | cons p recs ih =>
      simp only [List.foldl_cons, List.filter_cons]
      rw [ih]
      by_cases hacc : tmAccept lo hi p.2.time
      · simp only [hacc, if_true, List.map_cons, List.foldl_cons]
        congr 1
        unfold tmStep
        rw [if_pos hacc]
      · simp only [hacc, if_false]
        congr 1
        unfold tmStep
        rw [if_neg hacc]

/-- The end-timestamp tracking of a fold of regrouper steps is a fold of
the max-or-unset update over the accepted times. -/
theorem tm_fold_end (lo hi : Option ℚ) (recs : List (String × ScanRec))
    (st : TimedResult) :
    (recs.foldl (fun st p => tmStep lo hi p.1 st p.2) st).endTimestamp
      = ((recs.filter (fun p => tmAccept lo hi p.2.time)).map
            (fun p => p.2.time)).foldl
          (fun a t => if t > a ∨ a = -1 then t else a) st.endTimestamp := by
  induction recs generalizing st with
  | nil => rfl
  | cons p recs ih =>
      simp only [List.foldl_cons, List.filter_cons]
      rw [ih]
      by_cases hacc : tmAccept lo hi p.2.time
      · simp only [hacc, if_true, List.map_cons, List.foldl_cons]
        congr 1
        unfold tmStep
        rw [if_pos hacc]
      · simp only [hacc, if_false]
        congr 1
        unfold tmStep
        rw [if_neg hacc]

/-- Away from the sentinel, the min-or-unset update folds like `min`. -/
theorem foldl_updMin_eq (l : List ℚ) (a : ℚ) (ha : a ≠ -1)
    (hl : ∀ t ∈ l, t ≠ -1) :
    l.foldl (fun a t => if t < a ∨ a = -1 then t else a) a = l.foldl min a := by
  induction l generalizing a with
  | nil => rfl
  | cons t l ih =>
      simp only [List.foldl_cons]
      have hstep : (if t < a ∨ a = -1 then t else a) = min a t := by
        by_cases hlt : t < a
        · rw [if_pos (Or.inl hlt), min_eq_right hlt.le]
        · rw [if_neg ?_, min_eq_left (not_lt.mp hlt)]
          intro hor
          rcases hor with h | h
          · exact hlt h
          · exact ha h
      rw [hstep]
      have hmin_ne : min a t ≠ -1 := by
        rcases min_choice a t with h | h
        · rw [h]; exact ha
        · rw [h]; exact hl t (by simp)
      exact ih (min a t) hmin_ne (fun t2 ht2 => hl t2 (List.mem_cons_of_mem _ ht2))

/-- Away from the sentinel, the max-or-unset update folds like `max`. -/
theorem foldl_updMax_eq (l : List ℚ) (a : ℚ) (ha : a ≠ -1)
    (hl : ∀ t ∈ l, t ≠ -1) :
    l.foldl (fun a t => if t > a ∨ a = -1 then t else a) a = l.foldl max a := by
  induction l generalizing a with
  | nil => rfl
  | cons t l ih =>
      simp only [List.foldl_cons]
      have hstep : (if t > a ∨ a = -1 then t else a) = max a t := by
        by_cases hlt : t > a
        · rw [if_pos (Or.inl hlt), max_eq_right hlt.le]
        · rw [if_neg ?_, max_eq_left (not_lt.mp hlt)]
          intro hor
          rcases hor with h | h
          · exact hlt h
          · exact ha h
      rw [hstep]
      have hmax_ne : max a t ≠ -1 := by
        rcases max_choice a t with h | h
        · rw [h]; exact ha
        · rw [h]; exact hl t (by simp)
      exact ih (max a t) hmax_ne (fun t2 ht2 => hl t2 (List.mem_cons_of_mem _ ht2))

/-- Folding the min-or-unset update from the sentinel over a sentinel-free
list computes its minimum, with the sentinel for an empty list. -/
theorem foldl_updMin_min? (l : List ℚ) (hl : ∀ t ∈ l, t ≠ -1) :
    l.foldl (fun a t => if t < a ∨ a = -1 then t else a) (-1)
      = (l.min?).getD (-1) := by
  cases l with
  | nil => rfl
  | cons t l =>
      simp only [List.foldl_cons]
      rw [if_pos (Or.inr trivial)]
      have ht : t ≠ -1 := hl t (by simp)
      rw [foldl_updMin_eq l t ht (fun t2 ht2 => hl t2 (List.mem_cons_of_mem _ ht2))]
      simp [List.min?]

/-- Folding the max-or-unset update from the sentinel over a sentinel-free
list computes its maximum, with the sentinel for an empty list. -/
theorem foldl_updMax_max? (l : List ℚ) (hl : ∀ t ∈ l, t ≠ -1) :
    l.foldl (fun a t => if t > a ∨ a = -1 then t else a) (-1)
      = (l.max?).getD (-1) := by
  cases l with
  | nil => rfl
  | cons t l =>
      simp only [List.foldl_cons]
      rw [if_pos (Or.inr trivial)]
      have ht : t ≠ -1 := hl t (by simp)
      rw [foldl_updMax_eq l t ht (fun t2 ht2 => hl t2 (List.mem_cons_of_mem _ ht2))]
      simp [List.max?]

/-- Claim C9 (amended: the record filter is the inclusive range test as
claimed, but the min/max tracking uses the in-band sentinel `-1`, so the
returned range is the true min/max of the accepted times only when no
accepted record has time exactly `-1` — see the counterexample): under that
proviso, the regrouped view stores exactly one rssi per accepted record,
and `startTimestamp`/`endTimestamp` are the minimum and maximum accepted
times, both `-1` when no record passes the filter. -/
theorem claim_C9 (datasets : List ScanData) (lo hi : Option ℚ)
    (hne : ∀ t ∈ acceptedTimes datasets lo hi, t ≠ -1) :
    tmCount (getTimedMeasurements datasets lo hi).data
        = (acceptedTimes datasets lo hi).length
  ∧ (getTimedMeasurements datasets lo hi).startTimestamp
        = ((acceptedTimes datasets lo hi).min?).getD (-1)
  ∧ (getTimedMeasurements datasets lo hi).endTimestamp
        = ((acceptedTimes datasets lo hi).max?).getD (-1) := by
  have hne2 : ∀ t ∈ ((allRecords datasets).filter
      (fun p => tmAccept lo hi p.2.time)).map (fun p => p.2.time), t ≠ -1 := by
    rw [← acceptedTimes_eq]
    exact hne
  refine ⟨?_, ?_, ?_⟩
  · rw [getTimedMeasurements_eq_fold, tm_fold_count, acceptedTimes_eq]
    simp [tmCount]
  · rw [getTimedMeasurements_eq_fold, tm_fold_start, acceptedTimes_eq]
    exact foldl_updMin_min? _ hne2
  · rw [getTimedMeasurements_eq_fold, tm_fold_end, acceptedTimes_eq]
    exact foldl_updMax_max? _ hne2

/-- Witness for claim C9 on a plain two-record dataset without filters. -/
theorem claim_C9_witness :
    tmCount (getTimedMeasurements [dataTimed] none none).data
        = (acceptedTimes [dataTimed] none none).length
  ∧ (getTimedMeasurements [dataTimed] none none).startTimestamp
        = ((acceptedTimes [dataTimed] none none).min?).getD (-1)
  ∧ (getTimedMeasurements [dataTimed] none none).endTimestamp
        = ((acceptedTimes [dataTimed] none none).max?).getD (-1) :=
  claim_C9 [dataTimed] none none (by with_unfolding_all decide)

/-- Counterexample to claim C9 as stated: with accepted record times `-1`
and `5`, the minimum accepted time is `-1`, yet the code returns
`startTimestamp = 5` — the first accepted time `-1` aliases the "unset"
sentinel and is overwritten. -/
theorem claim_C9_counterexample :
    acceptedTimes [dataSentinelTime] none none = [-1, 5]
  ∧ (getTimedMeasurements [dataSentinelTime] none none).startTimestamp = 5
  ∧ (getTimedMeasurements [dataSentinelTime] none none).endTimestamp = 5 := by
  with_unfolding_all decide
